import Mathlib

/-!
Shallow embedding of `libraries/AP_Proximity/AP_Proximity_Backend.cpp`:
the sector-based angular distance model of the proximity backend.

Angles and distances (C `float`) are modelled as exact rationals `ℚ`;
the 2D edge/boundary vectors, whose components come from `cosf`/`sinf`,
are modelled as pairs of reals.  Machine-integer indices are `ℕ`/`ℤ`.
Fallible queries return `Option`; the C++ out-parameter protocol is
modelled separately by functions that thread the previous value of each
out parameter, so that "unmodified on failure" is expressible.
-/

namespace Proximity

/-- Pointwise update of a function at one index (an array store). -/
def updateFn {α : Type} (f : ℕ → α) (k : ℕ) (v : α) : ℕ → α :=
  fun j => if j = k then v else f j

/-- C truncation toward zero of a rational, as in a `float` → integer cast. -/
def truncZ (q : ℚ) : ℤ := if 0 ≤ q then ⌊q⌋ else ⌈q⌉

/-- `wrap_360` on floats: reduce an angle in degrees into [0, 360). -/
def wrap360q (q : ℚ) : ℚ := q - 360 * ⌊q / 360⌋

/-- `wrap_180` on floats: reduce an angle in degrees into (-180, 180]. -/
def wrap180q (q : ℚ) : ℚ :=
  let r := wrap360q q
  if r > 180 then r - 360 else r

/-- Integer-valued `wrap_360` as it acts on the integer angle differences in
`get_next_ignore_start_or_end` (the result is in [0, 360)). -/
def wrap360i (x : ℤ) : ℤ := x % 360

/-- `AP_Proximity::Proximity_Status`. -/
inductive ProximityStatus : Type
  | NotConnected : ProximityStatus
  | NoData : ProximityStatus
  | Good : ProximityStatus
  deriving DecidableEq

/-- The state a backend instance reads and writes: the sector table,
per-sector sample store, cached edge vectors and boundary points, the shared
status cell, and the frontend's ignore-zone configuration.  Fixed-size C
arrays are modelled as total functions from `ℕ`, indexed below
`num_sectors` (resp. `max_ignore`); `distance_max`, `boundary_dist_min` and
`max_ignore` model the constants `distance_max()`,
`PROXIMITY_BOUNDARY_DIST_MIN` and `PROXIMITY_MAX_IGNORE`, whose numeric
values live in headers outside this translation unit. -/
structure ProxState : Type where
  num_sectors : ℕ
  sector_middle_deg : ℕ → ℚ
  sector_width_deg : ℕ → ℚ
  distance_valid : ℕ → Bool
  distance : ℕ → ℚ
  angle : ℕ → ℚ
  sector_edge_vector : ℕ → ℝ × ℝ
  boundary_point : ℕ → ℝ × ℝ
  status : ProximityStatus
  distance_max : ℚ
  boundary_dist_min : ℚ
  max_ignore : ℕ
  ignore_angle_deg : ℕ → ℕ
  ignore_width_deg : ℕ → ℕ

/-- Absolute wrapped angular difference between sector `i`'s middle bearing
and the bearing `a`: `fabsf(wrap_180(_sector_middle_deg[i] - angle_degrees))`. -/
def sectorDiff (s : ProxState) (a : ℚ) (i : ℕ) : ℚ :=
  |wrap180q (s.sector_middle_deg i - a)|

/-- Sector `i`'s window covers bearing `a`:
`fabsf(angle_diff) <= _sector_width_deg[i] / 2.0f`. -/
def inWindow (s : ProxState) (a : ℚ) (i : ℕ) : Prop :=
  sectorDiff s a i ≤ s.sector_width_deg i / 2

instance (s : ProxState) (a : ℚ) (i : ℕ) : Decidable (inWindow s a i) := by
  unfold inWindow; infer_instance

/-- The scan loop of `convert_angle_to_sector`: walks the remaining sector
indices, returning the first sector whose window covers `a`, while tracking
the closest sector seen so far (index and its angular difference); falls back
to the closest sector when no window covers `a`. -/
def convertLoop (s : ProxState) (a : ℚ) :
    List ℕ → Option (ℕ × ℚ) → Option ℕ
  | [], closest => Option.map Prod.fst closest
  | i :: rest, closest =>
    let d := sectorDiff s a i
    let closest1 :=
      match closest with
      | none => some (i, d)
      | some (c, cd) => if d < cd then some (i, d) else some (c, cd)
    if inWindow s a i then some i
    else convertLoop s a rest closest1

/-- Normalisation of the input bearing into [0, 360):
`if (angle_degrees < 0.0f) angle_degrees += 360.0f`. -/
def normAngle (a : ℚ) : ℚ := if a < 0 then a + 360 else a

/-- `AP_Proximity_Backend::convert_angle_to_sector`.  `none` models a
`false` return (the `sector` out parameter left unwritten). -/
def convert_angle_to_sector (s : ProxState) (a : ℚ) : Option ℕ :=
  if a > 360 ∨ a < -180 then none
  else convertLoop s (normAngle a) (List.range s.num_sectors) none

/-- `AP_Proximity_Backend::get_horizontal_distance`, with the caller's prior
value of the `distance` out parameter threaded through: the first component
models the `bool` return, the second the out parameter after the call. -/
def get_horizontal_distance (s : ProxState) (angle_deg : ℚ) (distance0 : ℚ) :
    Bool × ℚ :=
  match convert_angle_to_sector s angle_deg with
  | some sector =>
    if s.distance_valid sector then (true, s.distance sector)
    else (false, distance0)
  | none => (false, distance0)

/-- The scan of `get_closest_object`: fold over sector indices keeping the
current best sector (`none` models `sector_found == false`); a valid sector
replaces the best only when no best exists yet or its distance is strictly
smaller. -/
def closestStep (s : ProxState) (best : Option ℕ) (i : ℕ) : Option ℕ :=
  if s.distance_valid i then
    match best with
    | none => some i
    | some b => if s.distance i < s.distance b then some i else some b
  else best

/-- `AP_Proximity_Backend::get_closest_object`, out parameters threaded:
returns the `bool` result together with the `angle_deg` and `distance` out
parameters after the call. -/
def get_closest_object (s : ProxState) (angle0 distance0 : ℚ) :
    Bool × ℚ × ℚ :=
  match (List.range s.num_sectors).foldl (closestStep s) none with
  | some sector => (true, s.angle sector, s.distance sector)
  | none => (false, angle0, distance0)

/-- `AP_Proximity_Backend::get_object_count`. -/
def get_object_count (s : ProxState) : ℕ := s.num_sectors

/-- `AP_Proximity_Backend::get_object_angle_and_distance`, out parameters
threaded as in `get_closest_object`. -/
def get_object_angle_and_distance (s : ProxState) (object_number : ℕ)
    (angle0 distance0 : ℚ) : Bool × ℚ × ℚ :=
  if object_number < s.num_sectors ∧ s.distance_valid object_number then
    (true, s.angle object_number, s.distance object_number)
  else (false, angle0, distance0)

/-- The output of `get_distances`: `AP_Proximity::Proximity_Distance_Array`
(orientation and distance arrays, 8 meaningful slots). -/
structure DistanceArray : Type where
  direction : ℕ → ℕ
  distance : ℕ → ℚ

/-- Does any sector hold a valid sample?  Models the initial
`valid_distances` scan of `get_distances`. -/
def hasValid (s : ProxState) : Bool :=
  (List.range s.num_sectors).any (fun i => s.distance_valid i)

/-- One iteration of the sector-bucketing loop of `get_distances`: for a
valid sector, `int16_t orientation = _angle[i] / 45` (C float→int conversion,
truncation toward zero); if the bucket is in [0, 8) and the sector's distance
is strictly below the slot's current value, the slot is overwritten and
marked set.  The accumulator is the (distance slots, set flags) pair. -/
def bucketStep (s : ProxState) (acc : (ℕ → ℚ) × (ℕ → Bool)) (i : ℕ) :
    (ℕ → ℚ) × (ℕ → Bool) :=
  if s.distance_valid i then
    if 0 ≤ truncZ (s.angle i / 45) ∧ truncZ (s.angle i / 45) < 8 ∧
        s.distance i < acc.1 (truncZ (s.angle i / 45)).toNat then
      (updateFn acc.1 (truncZ (s.angle i / 45)).toNat (s.distance i),
       updateFn acc.2 (truncZ (s.angle i / 45)).toNat true)
    else acc
  else acc

/-- The bucketing pass of `get_distances`, starting from all slots at
`distance_max()` and unset. -/
def bucketPass (s : ProxState) : (ℕ → ℚ) × (ℕ → Bool) :=
  (List.range s.num_sectors).foldl (bucketStep s)
    ((fun _ => s.distance_max), (fun _ => false))

/-- Index of the counter-clockwise neighbour in the 8-slot ring:
`(i==0) ? 7 : (i-1)`. -/
def orientBefore (i : ℕ) : ℕ := if i = 0 then 7 else i - 1

/-- Index of the clockwise neighbour in the 8-slot ring:
`(i==7) ? 0 : (i+1)`. -/
def orientAfter (i : ℕ) : ℕ := if i = 7 then 0 else i + 1

/-- One iteration of the gap-filling loop of `get_distances`: a still-unset
slot whose two ring neighbours are both set receives the mean of their
distances.  The set flags are those left by the bucketing pass and are not
modified here, matching the source. -/
def fillStep (st : ℕ → Bool) (d : ℕ → ℚ) (i : ℕ) : ℕ → ℚ :=
  if st i = false then
    if st (orientBefore i) ∧ st (orientAfter i) then
      updateFn d i ((d (orientBefore i) + d (orientAfter i)) / 2)
    else d
  else d

/-- The gap-filling pass of `get_distances` over the 8 slots. -/
def fillPass (st : ℕ → Bool) (d : ℕ → ℚ) : ℕ → ℚ :=
  (List.range 8).foldl (fillStep st) d

/-- `AP_Proximity_Backend::get_distances`: `none` models a `false` return
(no valid ranges); otherwise the output array has slot `k` labelled with
direction `k` and distances produced by the bucketing pass followed by the
gap-filling pass. -/
def get_distances (s : ProxState) : Option DistanceArray :=
  if hasValid s then
    let bp := bucketPass s
    some { direction := fun i => i, distance := fillPass bp.2 bp.1 }
  else none

/-- `AP_Proximity_Backend::get_boundary_points`: `none` models the
`nullptr`/`num_points = 0` failure return; `some` carries the boundary-point
array and `num_points = _num_sectors`. -/
def get_boundary_points (s : ProxState) : Option ((ℕ → ℝ × ℝ) × ℕ) :=
  if s.status ≠ ProximityStatus.Good then none
  else if (List.range s.num_sectors).all (fun i => s.distance_valid i) then
    some (s.boundary_point, s.num_sectors)
  else none

/-- `radians(x)` from AP_Math: degrees to radians. -/
noncomputable def radiansQ (x : ℚ) : ℝ := (x : ℝ) * Real.pi / 180

/-- Vector2f `*` scalar. -/
def vscale (v : ℝ × ℝ) (k : ℝ) : ℝ × ℝ := (v.1 * k, v.2 * k)

/-- The clockwise-adjacent sector index, wrapping to 0 past the last sector:
`uint8_t next_sector = sector + 1; if (next_sector >= _num_sectors) next_sector = 0`. -/
def nextSector (s : ProxState) (sector : ℕ) : ℕ :=
  if sector + 1 ≥ s.num_sectors then 0 else sector + 1

/-- The counter-clockwise-adjacent sector index:
`uint8_t prev_sector = (sector == 0) ? _num_sectors-1 : sector-1`. -/
def prevSector (s : ProxState) (sector : ℕ) : ℕ :=
  if sector = 0 then s.num_sectors - 1 else sector - 1

section
open Classical

/-- The lazy edge-vector initialisation block of `update_boundary_for_sector`:
if the cached vector is still zero, store
`(cosf(angle_rad) * 100.0f, sinf(angle_rad) * 100.0f)` for
`angle_rad = radians(middle + width/2)`.  `Vector2f::is_zero` (defined in an
AP_Math header outside this translation unit) is modelled as the exact zero
test, per the spec's "cached once nonzero". -/
noncomputable def lazyInitEdge (s : ProxState) (sector : ℕ) : ProxState :=
  if s.sector_edge_vector sector = ((0 : ℝ), (0 : ℝ)) then
    { s with sector_edge_vector :=
        fun j => if j = sector then
          (Real.cos (radiansQ (s.sector_middle_deg sector +
              s.sector_width_deg sector / 2)) * 100,
           Real.sin (radiansQ (s.sector_middle_deg sector +
              s.sector_width_deg sector / 2)) * 100)
        else s.sector_edge_vector j }
  else s

/-- The first boundary-point update block of `update_boundary_for_sector`
(edge between `sector` and its clockwise neighbour), with the
`PROXIMITY_BOUNDARY_DIST_MIN` floor on the shorter of the two distances. -/
noncomputable def updateBoundaryCW (s : ProxState) (sector : ℕ) : ProxState :=
  if s.distance_valid sector ∧ s.distance_valid (nextSector s sector) then
    let short0 := min (s.distance sector) (s.distance (nextSector s sector))
    let shortest :=
      if short0 < s.boundary_dist_min then s.boundary_dist_min else short0
    { s with boundary_point :=
        fun j => if j = sector then
          vscale (s.sector_edge_vector sector) (shortest : ℝ)
        else s.boundary_point j }
  else s

/-- The second boundary-point update block of `update_boundary_for_sector`
(edge between `sector` and its counter-clockwise neighbour), with no floor
on the shorter distance. -/
noncomputable def updateBoundaryCCW (s : ProxState) (sector : ℕ) : ProxState :=
  if s.distance_valid (prevSector s sector) ∧ s.distance_valid sector then
    let shortest := min (s.distance (prevSector s sector)) (s.distance sector)
    { s with boundary_point :=
        fun j => if j = prevSector s sector then
          vscale (s.sector_edge_vector (prevSector s sector)) (shortest : ℝ)
        else s.boundary_point j }
  else s

/-- `AP_Proximity_Backend::update_boundary_for_sector`: sanity check on the
sector index, then the three blocks in source order. -/
noncomputable def update_boundary_for_sector (s : ProxState) (sector : ℕ) :
    ProxState :=
  if sector ≥ s.num_sectors then s
  else updateBoundaryCCW (updateBoundaryCW (lazyInitEdge s sector) sector) sector

end

/-- `AP_Proximity_Backend::set_status`. -/
def set_status (s : ProxState) (st : ProximityStatus) : ProxState :=
  { s with status := st }

/-- `AP_Proximity_Backend::get_ignore_area_count`. -/
def get_ignore_area_count (s : ProxState) : ℕ :=
  (List.range s.max_ignore).foldl
    (fun c i => if s.ignore_width_deg i ≠ 0 then c + 1 else c) 0

/-- `AP_Proximity_Backend::get_ignore_area`, out parameters threaded. -/
def get_ignore_area (s : ProxState) (index : ℕ) (angle0 width0 : ℕ) :
    Bool × ℕ × ℕ :=
  if index ≥ s.max_ignore then (false, angle0, width0)
  else (true, s.ignore_angle_deg index, s.ignore_width_deg index)

/-- The boundary angle `get_next_ignore_start_or_end` computes for zone `i`:
`int16_t ignore_start_angle = wrap_360(_ignore_angle_deg[i] + offset/2.0f)`
with `offset = ∓ _ignore_width_deg[i]`.  The float `wrap_360` result lies in
[0, 360), so the `int16_t` conversion is a floor. -/
def ignoreBoundary (s : ProxState) (start_or_end : ℕ) (i : ℕ) : ℤ :=
  let offset : ℚ :=
    if start_or_end = 0 then -(s.ignore_width_deg i : ℚ)
    else (s.ignore_width_deg i : ℚ)
  ⌊wrap360q ((s.ignore_angle_deg i : ℚ) + offset / 2)⌋

/-- One iteration of the zone scan of `get_next_ignore_start_or_end`: the
accumulator holds `(smallest_angle_diff, smallest_angle_start)` when a zone
has been found, and is replaced only on a strictly smaller wrapped clockwise
difference. -/
def ignoreStep (s : ProxState) (start_or_end : ℕ) (start_angle : ℤ)
    (acc : Option (ℤ × ℤ)) (i : ℕ) : Option (ℤ × ℤ) :=
  if s.ignore_width_deg i ≠ 0 then
    match acc with
    | none => some (wrap360i (ignoreBoundary s start_or_end i - start_angle),
        ignoreBoundary s start_or_end i)
    | some (sd, sb) =>
      if wrap360i (ignoreBoundary s start_or_end i - start_angle) < sd then
        some (wrap360i (ignoreBoundary s start_or_end i - start_angle),
          ignoreBoundary s start_or_end i)
      else some (sd, sb)
  else acc

/-- `AP_Proximity_Backend::get_next_ignore_start_or_end`, fallible result as
`Option`: `some` carries the winning boundary angle. -/
def get_next_ignore_start_or_end (s : ProxState) (start_or_end : ℕ)
    (start_angle : ℤ) : Option ℤ :=
  Option.map Prod.snd
    ((List.range s.max_ignore).foldl (ignoreStep s start_or_end start_angle)
      none)

/-- `get_next_ignore_start_or_end` with the `ignore_start` out parameter
threaded. -/
def get_next_ignore_io (s : ProxState) (start_or_end : ℕ) (start_angle : ℤ)
    (out0 : ℤ) : Bool × ℤ :=
  match get_next_ignore_start_or_end s start_or_end start_angle with
  | some b => (true, b)
  | none => (false, out0)

/-! ### Basic lemmas about the angle arithmetic and array stores -/

lemma updateFn_same {α : Type} (f : ℕ → α) (k : ℕ) (v : α) :
    updateFn f k v k = v := by
  simp [updateFn]

lemma updateFn_ne {α : Type} (f : ℕ → α) (k : ℕ) (v : α) (j : ℕ)
    (h : j ≠ k) : updateFn f k v j = f j := by
  simp [updateFn, h]

lemma wrap360q_sub_360 (x : ℚ) : wrap360q (x - 360) = wrap360q x := by
  unfold wrap360q
  have h : (x - 360) / 360 = x / 360 - 1 := by ring
  rw [h]
  rw [show x / 360 - 1 = x / 360 - (1 : ℤ) by push_cast; ring]
  rw [Int.floor_sub_int]
  push_cast
  ring

lemma wrap180q_sub_360 (x : ℚ) : wrap180q (x - 360) = wrap180q x := by
  unfold wrap180q
  rw [wrap360q_sub_360]

lemma sectorDiff_normAngle (s : ProxState) (a : ℚ) (i : ℕ) :
    sectorDiff s (normAngle a) i = sectorDiff s a i := by
  unfold sectorDiff normAngle
  split
  · rw [show s.sector_middle_deg i - (a + 360)
        = s.sector_middle_deg i - a - 360 by ring, wrap180q_sub_360]
  · rfl

lemma inWindow_normAngle (s : ProxState) (a : ℚ) (i : ℕ) :
    inWindow s (normAngle a) i ↔ inWindow s a i := by
  unfold inWindow
  rw [sectorDiff_normAngle]

/-! ### The sector-conversion scan -/

lemma convertLoop_nil (s : ProxState) (a : ℚ) (closest : Option (ℕ × ℚ)) :
    convertLoop s a [] closest = Option.map Prod.fst closest := rfl

lemma convertLoop_cons (s : ProxState) (a : ℚ) (i : ℕ) (rest : List ℕ)
    (closest : Option (ℕ × ℚ)) :
    convertLoop s a (i :: rest) closest =
      if inWindow s a i then some i
      else convertLoop s a rest
        (match closest with
         | none => some (i, sectorDiff s a i)
         | some (c, cd) =>
           if sectorDiff s a i < cd then some (i, sectorDiff s a i)
           else some (c, cd)) := rfl

/-- The scan returns the first in-window sector of the scanned range,
whatever closest-so-far state it starts from. -/
lemma convertLoop_first_window (s : ProxState) (a : ℚ) (k : ℕ) :
    ∀ (i : ℕ) (closest : Option (ℕ × ℚ)) (j : ℕ), i ≤ j → j < i + k →
      inWindow s a j → (∀ m, i ≤ m → m < j → ¬ inWindow s a m) →
      convertLoop s a (List.range' i k) closest = some j := by
  induction k with
  | zero => intro i closest j hij hjk _ _; omega
  | succ k ih =>
    intro i closest j hij hjk hw hfirst
    rw [List.range'_succ, convertLoop_cons]
    by_cases hwi : inWindow s a i
    · have hji : i = j := by
        rcases Nat.eq_or_lt_of_le hij with h | h
        · exact h
        · exact absurd hwi (hfirst i le_rfl h)
      rw [if_pos hwi, hji]
    · rw [if_neg hwi]
      have hij2 : i + 1 ≤ j := by
        rcases Nat.eq_or_lt_of_le hij with h | h
        · exact absurd (h ▸ hw) hwi
        · omega
      exact ih (i + 1) _ j hij2 (by omega) hw
        (fun m hm1 hm2 => hfirst m (by omega) hm2)

/-- When no scanned sector's window covers `a`, the scan falls through to the
closest-so-far sector; the result is a sector minimising the wrapped angular
difference among the tracked candidate and the scanned range. -/
lemma convertLoop_no_window (s : ProxState) (a : ℚ) (k : ℕ) :
    ∀ (i c : ℕ) (cd : ℚ), i + k ≤ s.num_sectors → c < s.num_sectors →
      cd = sectorDiff s a c →
      (∀ m, i ≤ m → m < i + k → ¬ inWindow s a m) →
      ∃ j, convertLoop s a (List.range' i k) (some (c, cd)) = some j ∧
        j < s.num_sectors ∧ sectorDiff s a j ≤ cd ∧
        ∀ m, i ≤ m → m < i + k → sectorDiff s a j ≤ sectorDiff s a m := by
  induction k with
  | zero =>
    intro i c cd _ hc hcd _
    exact ⟨c, rfl, hc, le_of_eq hcd.symm,
      fun m hm1 hm2 => absurd hm2 (by omega)⟩
  | succ k ih =>
    intro i c cd hik hc hcd hnw
    rw [List.range'_succ, convertLoop_cons]
    have hwi : ¬ inWindow s a i := hnw i le_rfl (by omega)
    rw [if_neg hwi]
    by_cases hdc : sectorDiff s a i < cd
    · obtain ⟨j, hj1, hj2, hj3, hj4⟩ := ih (i + 1) i (sectorDiff s a i)
        (by omega) (by omega) rfl
        (fun m hm1 hm2 => hnw m (by omega) (by omega))
      refine ⟨j, ?_, hj2, le_of_lt (lt_of_le_of_lt hj3 hdc), ?_⟩
      · rw [← hj1]
        congr 1
        simp [hdc]
      · intro m hm1 hm2
        rcases Nat.eq_or_lt_of_le hm1 with h | hm
        · exact h ▸ hj3
        · exact hj4 m hm (by omega)
    · obtain ⟨j, hj1, hj2, hj3, hj4⟩ := ih (i + 1) c cd (by omega) hc hcd
        (fun m hm1 hm2 => hnw m (by omega) (by omega))
      refine ⟨j, ?_, hj2, hj3, ?_⟩
      · rw [← hj1]
        congr 1
        simp [hdc]
      · intro m hm1 hm2
        rcases Nat.eq_or_lt_of_le hm1 with h | hm
        · exact h ▸ (le_trans hj3 (not_lt.mp hdc))
        · exact hj4 m hm (by omega)

lemma range_zero_cons (n : ℕ) (hn : 0 < n) :
    List.range' 0 n = 0 :: List.range' 1 (n - 1) := by
  conv_lhs => rw [show n = (n - 1) + 1 by omega]
  rw [List.range'_succ]

/-- The whole scan when no sector's window covers the (normalised) bearing:
nearest-sector fallback. -/
lemma convert_fallback (s : ProxState) (a : ℚ)
    (hdom : ¬(a > 360 ∨ a < -180)) (hn : 0 < s.num_sectors)
    (hnw : ∀ m, m < s.num_sectors → ¬ inWindow s (normAngle a) m) :
    ∃ j, convert_angle_to_sector s a = some j ∧ j < s.num_sectors ∧
      ∀ m, m < s.num_sectors →
        sectorDiff s (normAngle a) j ≤ sectorDiff s (normAngle a) m := by
  unfold convert_angle_to_sector
  rw [if_neg hdom, List.range_eq_range', range_zero_cons _ hn,
    convertLoop_cons, if_neg (hnw 0 hn)]
  obtain ⟨j, hj1, hj2, hj3, hj4⟩ :=
    convertLoop_no_window s (normAngle a) (s.num_sectors - 1) 1 0
      (sectorDiff s (normAngle a) 0) (by omega) hn rfl
      (fun m hm1 hm2 => hnw m (by omega))
  refine ⟨j, ?_, hj2, ?_⟩
  · rw [← hj1]
  · intro m hm
    rcases Nat.eq_zero_or_pos m with rfl | hm1
    · exact hj3
    · exact hj4 m hm1 (by omega)

/-- C4: `convert_angle_to_sector` fails exactly on a bearing outside
[-180, 360] or a zero sector count; a bearing covered by some sector's window
yields the first covering sector in scan order; a bearing covered by no
window yields a sector at minimal wrapped angular difference. -/
theorem C4_convert_angle_to_sector (s : ProxState) (a : ℚ) :
    (convert_angle_to_sector s a = none ↔
      (a > 360 ∨ a < -180 ∨ s.num_sectors = 0))
    ∧ (∀ j, ¬(a > 360 ∨ a < -180) → j < s.num_sectors → inWindow s a j →
        (∀ m, m < j → ¬ inWindow s a m) →
        convert_angle_to_sector s a = some j)
    ∧ (¬(a > 360 ∨ a < -180) → 0 < s.num_sectors →
        (∀ m, m < s.num_sectors → ¬ inWindow s a m) →
        ∃ j, convert_angle_to_sector s a = some j ∧ j < s.num_sectors ∧
          ∀ m, m < s.num_sectors →
            sectorDiff s a j ≤ sectorDiff s a m) := by
  have hpart2 : ∀ j, ¬(a > 360 ∨ a < -180) → j < s.num_sectors →
      inWindow s a j → (∀ m, m < j → ¬ inWindow s a m) →
      convert_angle_to_sector s a = some j := by
    intro j hdom hj hw hfirst
    unfold convert_angle_to_sector
    rw [if_neg hdom, List.range_eq_range']
    exact convertLoop_first_window s (normAngle a) s.num_sectors 0 none j
      (Nat.zero_le j) (by omega) ((inWindow_normAngle s a j).mpr hw)
      (fun m _ hmj hwm =>
        hfirst m hmj ((inWindow_normAngle s a m).mp hwm))
  have hpart3 : ¬(a > 360 ∨ a < -180) → 0 < s.num_sectors →
      (∀ m, m < s.num_sectors → ¬ inWindow s a m) →
      ∃ j, convert_angle_to_sector s a = some j ∧ j < s.num_sectors ∧
        ∀ m, m < s.num_sectors → sectorDiff s a j ≤ sectorDiff s a m := by
    intro hdom hn hnw
    obtain ⟨j, hj1, hj2, hj3⟩ := convert_fallback s a hdom hn
      (fun m hm hwm => hnw m hm ((inWindow_normAngle s a m).mp hwm))
    refine ⟨j, hj1, hj2, ?_⟩
    intro m hm
    have := hj3 m hm
    rwa [sectorDiff_normAngle, sectorDiff_normAngle] at this
  refine ⟨⟨?_, ?_⟩, hpart2, hpart3⟩
  · intro hnone
    by_contra hcon
    push_neg at hcon
    obtain ⟨h1, h2, h3⟩ := hcon
    have hdom : ¬(a > 360 ∨ a < -180) := by
      push_neg
      exact ⟨h1, h2⟩
    have hn : 0 < s.num_sectors := Nat.pos_of_ne_zero h3
    by_cases hex : ∃ j, j < s.num_sectors ∧ inWindow s a j
    · classical
      have hfind := Nat.find_spec hex
      have := hpart2 (Nat.find hex) hdom hfind.1 hfind.2
        (fun m hmj hwm =>
          Nat.find_min hex hmj ⟨by omega, hwm⟩)
      rw [hnone] at this
      exact Option.noConfusion this
    · push_neg at hex
      obtain ⟨j, hj1, _, _⟩ := hpart3 hdom hn
        (fun m hm => hex m hm)
      rw [hnone] at hj1
      exact Option.noConfusion hj1
  · intro h
    rcases h with h | h
    · unfold convert_angle_to_sector
      rw [if_pos (Or.inl h)]
    · rcases h with h | h
      · unfold convert_angle_to_sector
        rw [if_pos (Or.inr h)]
      · unfold convert_angle_to_sector
        split
        · rfl
        · rw [h]
          rfl

/-! ### The closest-object scan -/

/-- Invariant of the `get_closest_object` scan after the sectors below `i`
have been examined: no best sector exists exactly when none of them holds a
valid sample; otherwise the best sector is a valid sector of the scanned
prefix with minimal distance, and strictly smaller distance than every valid
sector before it (first-wins tie-breaking). -/
def closestInv (s : ProxState) (i : ℕ) : Option ℕ → Prop
  | none => ∀ m, m < i → s.distance_valid m = false
  | some b => b < i ∧ s.distance_valid b = true ∧
      (∀ m, m < i → s.distance_valid m = true →
        s.distance b ≤ s.distance m) ∧
      (∀ m, m < b → s.distance_valid m = true →
        s.distance b < s.distance m)

lemma closestStep_inv (s : ProxState) (i : ℕ) (best : Option ℕ)
    (h : closestInv s i best) : closestInv s (i + 1) (closestStep s best i) := by
  unfold closestStep
  by_cases hv : s.distance_valid i = true
  · rw [if_pos hv]
    cases best with
    | none =>
      refine ⟨Nat.lt_succ_self i, hv, ?_, ?_⟩
      · intro m hm hmv
        rcases Nat.lt_succ_iff_lt_or_eq.mp hm with hm | rfl
        · exact absurd hmv (by simp [h m hm])
        · exact le_rfl
      · intro m hm hmv
        exact absurd hmv (by simp [h m hm])
    | some b =>
      obtain ⟨hb1, hb2, hb3, hb4⟩ := h
      show closestInv s (i + 1)
        (if s.distance i < s.distance b then some i else some b)
      by_cases hlt : s.distance i < s.distance b
      · rw [if_pos hlt]
        refine ⟨Nat.lt_succ_self i, hv, ?_, ?_⟩
        · intro m hm hmv
          rcases Nat.lt_succ_iff_lt_or_eq.mp hm with hm | rfl
          · exact le_of_lt (lt_of_lt_of_le hlt (hb3 m hm hmv))
          · exact le_rfl
        · intro m hm hmv
          exact lt_of_lt_of_le hlt (hb3 m hm hmv)
      · rw [if_neg hlt]
        refine ⟨lt_trans hb1 (Nat.lt_succ_self i), hb2, ?_, hb4⟩
        intro m hm hmv
        rcases Nat.lt_succ_iff_lt_or_eq.mp hm with hm | rfl
        · exact hb3 m hm hmv
        · exact not_lt.mp hlt
  · rw [if_neg hv]
    cases best with
    | none =>
      intro m hm
      rcases Nat.lt_succ_iff_lt_or_eq.mp hm with hm | rfl
      · exact h m hm
      · exact Bool.not_eq_true _ ▸ (by simpa using hv)
    | some b =>
      obtain ⟨hb1, hb2, hb3, hb4⟩ := h
      refine ⟨lt_trans hb1 (Nat.lt_succ_self i), hb2, ?_, hb4⟩
      intro m hm hmv
      rcases Nat.lt_succ_iff_lt_or_eq.mp hm with hm | rfl
      · exact hb3 m hm hmv
      · exact absurd hmv hv

lemma closestFold_inv (s : ProxState) (k : ℕ) :
    ∀ (i : ℕ) (best : Option ℕ), closestInv s i best →
      closestInv s (i + k) ((List.range' i k).foldl (closestStep s) best) := by
  induction k with
  | zero =>
    intro i best h
    simpa using h
  | succ k ih =>
    intro i best h
    rw [List.range'_succ]
    simp only [List.foldl_cons]
    rw [show i + (k + 1) = (i + 1) + k by omega]
    exact ih (i + 1) (closestStep s best i) (closestStep_inv s i best h)

lemma closest_inv_final (s : ProxState) :
    closestInv s s.num_sectors
      ((List.range s.num_sectors).foldl (closestStep s) none) := by
  rw [List.range_eq_range']
  have h0 : closestInv s 0 none :=
    fun m hm => absurd hm (Nat.not_lt_zero m)
  simpa using closestFold_inv s s.num_sectors 0 none h0

/-- C7: `get_closest_object` fails exactly when no sector holds a valid
sample; on success it reports the stored angle and distance of a valid sector
of minimal distance, and of strictly smaller distance than every valid sector
of lower index (so exact ties go to the lowest index). -/
theorem C7_get_closest_object (s : ProxState) (a0 d0 : ℚ) :
    ((get_closest_object s a0 d0).1 = false ↔
      ∀ i, i < s.num_sectors → s.distance_valid i = false)
    ∧ ((get_closest_object s a0 d0).1 = true →
      ∃ b, b < s.num_sectors ∧ s.distance_valid b = true ∧
        (get_closest_object s a0 d0).2 = (s.angle b, s.distance b) ∧
        (∀ m, m < s.num_sectors → s.distance_valid m = true →
          s.distance b ≤ s.distance m) ∧
        (∀ m, m < b → s.distance_valid m = true →
          s.distance b < s.distance m)) := by
  have hinv := closest_inv_final s
  unfold get_closest_object
  cases hfold : (List.range s.num_sectors).foldl (closestStep s) none with
  | none =>
    rw [hfold] at hinv
    refine ⟨⟨fun _ => fun m hm => hinv m hm, fun _ => rfl⟩, ?_⟩
    intro h
    exact absurd h (by simp)
  | some b =>
    rw [hfold] at hinv
    obtain ⟨hb1, hb2, hb3, hb4⟩ := hinv
    refine ⟨⟨fun h => absurd h (by simp), ?_⟩, ?_⟩
    · intro hall
      exact absurd hb2 (by simp [hall b hb1])
    · intro _
      exact ⟨b, hb1, hb2, rfl, hb3, hb4⟩

/-! ### The 8-direction bucketing pass -/

/-- Invariant of the bucketing loop of `get_distances` after the sectors
below `i` have been examined.  For each of the 8 slots: the slot is marked
set exactly when some examined valid sector truncates into that bucket with
a distance below the initial maximum; an unset slot still holds the maximum;
a set slot holds the distance of some such sector; and the slot's value is a
lower bound of all examined candidates and of the maximum. -/
def bucketInv (s : ProxState) (i : ℕ) (acc : (ℕ → ℚ) × (ℕ → Bool)) : Prop :=
  ∀ k, k < 8 →
    (acc.2 k = true ↔ ∃ j, j < i ∧ s.distance_valid j = true ∧
        truncZ (s.angle j / 45) = (k : ℤ) ∧ s.distance j < s.distance_max) ∧
    (acc.2 k = false → acc.1 k = s.distance_max) ∧
    (acc.2 k = true → ∃ j, j < i ∧ s.distance_valid j = true ∧
        truncZ (s.angle j / 45) = (k : ℤ) ∧ acc.1 k = s.distance j) ∧
    (∀ j, j < i → s.distance_valid j = true →
        truncZ (s.angle j / 45) = (k : ℤ) → acc.1 k ≤ s.distance j) ∧
    acc.1 k ≤ s.distance_max

lemma bucketStep_inv (s : ProxState) (i : ℕ) (acc : (ℕ → ℚ) × (ℕ → Bool))
    (h : bucketInv s i acc) : bucketInv s (i + 1) (bucketStep s acc i) := by
  unfold bucketStep
  by_cases hv : s.distance_valid i = true
  · rw [if_pos hv]
    by_cases hcond : 0 ≤ truncZ (s.angle i / 45) ∧ truncZ (s.angle i / 45) < 8 ∧
        s.distance i < acc.1 (truncZ (s.angle i / 45)).toNat
    · rw [if_pos hcond]
      obtain ⟨ho0, ho8, hoi⟩ := hcond
      unfold bucketInv
      dsimp only
      intro k hk
      obtain ⟨h1, h2, h3, h4, h5⟩ := h k hk
      by_cases hkK : k = (truncZ (s.angle i / 45)).toNat
      · have hko : truncZ (s.angle i / 45) = (k : ℤ) := by
          rw [hkK, Int.toNat_of_nonneg ho0]
        rw [← hkK] at hoi
        rw [← hkK]
        refine ⟨?_, ?_, ?_, ?_, ?_⟩
        · constructor
          · intro _
            exact ⟨i, Nat.lt_succ_self i, hv, hko, lt_of_lt_of_le hoi h5⟩
          · intro _
            exact updateFn_same _ _ _
        · intro hcontra
          rw [updateFn_same] at hcontra
          exact absurd hcontra (by simp)
        · intro _
          exact ⟨i, Nat.lt_succ_self i, hv, hko, updateFn_same _ _ _⟩
        · intro j hj hjv hjo
          rw [updateFn_same]
          rcases Nat.lt_succ_iff_lt_or_eq.mp hj with hj | rfl
          · exact le_of_lt (lt_of_lt_of_le hoi (h4 j hj hjv hjo))
          · exact le_rfl
        · rw [updateFn_same]
          exact le_of_lt (lt_of_lt_of_le hoi h5)
      · have hne : ¬(truncZ (s.angle i / 45) = (k : ℤ)) := by
          intro hcontra
          exact hkK (by omega)
        rw [updateFn_ne _ _ _ _ hkK, updateFn_ne _ _ _ _ hkK]
        refine ⟨?_, h2, ?_, ?_, h5⟩
        · rw [h1]
          constructor
          · rintro ⟨j, hj, hjp⟩
            exact ⟨j, lt_trans hj (Nat.lt_succ_self i), hjp⟩
          · rintro ⟨j, hj, hjv, hjo, hjd⟩
            rcases Nat.lt_succ_iff_lt_or_eq.mp hj with hj | rfl
            · exact ⟨j, hj, hjv, hjo, hjd⟩
            · exact absurd hjo hne
        · intro hset
          obtain ⟨j, hj, hjp⟩ := h3 hset
          exact ⟨j, lt_trans hj (Nat.lt_succ_self i), hjp⟩
        · intro j hj hjv hjo
          rcases Nat.lt_succ_iff_lt_or_eq.mp hj with hj | rfl
          · exact h4 j hj hjv hjo
          · exact absurd hjo hne
    · rw [if_neg hcond]
      intro k hk
      obtain ⟨h1, h2, h3, h4, h5⟩ := h k hk
      have hnew : s.distance_valid i = true →
          truncZ (s.angle i / 45) = (k : ℤ) → acc.1 k ≤ s.distance i := by
        intro _ hio
        have : ¬(s.distance i < acc.1 (truncZ (s.angle i / 45)).toNat) := by
          intro hcontra
          exact hcond ⟨by omega, by omega, hcontra⟩
        rw [hio] at this
        simpa using not_lt.mp this
      refine ⟨?_, h2, ?_, ?_, h5⟩
      · rw [h1]
        constructor
        · rintro ⟨j, hj, hjp⟩
          exact ⟨j, lt_trans hj (Nat.lt_succ_self i), hjp⟩
        · rintro ⟨j, hj, hjv, hjo, hjd⟩
          rcases Nat.lt_succ_iff_lt_or_eq.mp hj with hj | rfl
          · exact ⟨j, hj, hjv, hjo, hjd⟩
          · by_contra hset
            have hfalse : acc.2 k = false := by
              cases hbk : acc.2 k
              · rfl
              · exact absurd (h1.mp hbk) hset
            have hle := hnew hjv hjo
            rw [h2 hfalse] at hle
            exact absurd hjd (not_lt.mpr hle)
      · intro hset
        obtain ⟨j, hj, hjp⟩ := h3 hset
        exact ⟨j, lt_trans hj (Nat.lt_succ_self i), hjp⟩
      · intro j hj hjv hjo
        rcases Nat.lt_succ_iff_lt_or_eq.mp hj with hj | rfl
        · exact h4 j hj hjv hjo
        · exact hnew hjv hjo
  · rw [if_neg hv]
    intro k hk
    obtain ⟨h1, h2, h3, h4, h5⟩ := h k hk
    refine ⟨?_, h2, ?_, ?_, h5⟩
    · rw [h1]
      constructor
      · rintro ⟨j, hj, hjp⟩
        exact ⟨j, lt_trans hj (Nat.lt_succ_self i), hjp⟩
      · rintro ⟨j, hj, hjv, hjo, hjd⟩
        rcases Nat.lt_succ_iff_lt_or_eq.mp hj with hj | rfl
        · exact ⟨j, hj, hjv, hjo, hjd⟩
        · exact absurd hjv hv
    · intro hset
      obtain ⟨j, hj, hjp⟩ := h3 hset
      exact ⟨j, lt_trans hj (Nat.lt_succ_self i), hjp⟩
    · intro j hj hjv hjo
      rcases Nat.lt_succ_iff_lt_or_eq.mp hj with hj | rfl
      · exact h4 j hj hjv hjo
      · exact absurd hjv hv

lemma bucketFold_inv (s : ProxState) (k : ℕ) :
    ∀ (i : ℕ) (acc : (ℕ → ℚ) × (ℕ → Bool)), bucketInv s i acc →
      bucketInv s (i + k) ((List.range' i k).foldl (bucketStep s) acc) := by
  induction k with
  | zero =>
    intro i acc h
    simpa using h
  | succ k ih =>
    intro i acc h
    rw [List.range'_succ]
    simp only [List.foldl_cons]
    rw [show i + (k + 1) = (i + 1) + k by omega]
    exact ih (i + 1) (bucketStep s acc i) (bucketStep_inv s i acc h)

lemma bucketInv_zero (s : ProxState) :
    bucketInv s 0 ((fun _ => s.distance_max), (fun _ => false)) := by
  intro k hk
  refine ⟨?_, fun _ => rfl, ?_, ?_, le_rfl⟩
  · constructor
    · intro hcontra
      exact absurd hcontra (by simp)
    · rintro ⟨j, hj, _⟩
      exact absurd hj (Nat.not_lt_zero j)
  · intro hcontra
    exact absurd hcontra (by simp)
  · intro j hj
    exact absurd hj (Nat.not_lt_zero j)

lemma bucketPass_inv (s : ProxState) :
    bucketInv s s.num_sectors (bucketPass s) := by
  unfold bucketPass
  rw [List.range_eq_range']
  simpa using bucketFold_inv s s.num_sectors 0 _ (bucketInv_zero s)

/-! ### The gap-filling pass -/

lemma fillStep_notmem (st : ℕ → Bool) (d : ℕ → ℚ) (i m : ℕ) (hm : m ≠ i) :
    fillStep st d i m = d m := by
  unfold fillStep
  split_ifs with h1 h2
  · exact updateFn_ne _ _ _ _ hm
  · rfl
  · rfl

lemma fillStep_set (st : ℕ → Bool) (d : ℕ → ℚ) (i m : ℕ)
    (hm : st m = true) : fillStep st d i m = d m := by
  by_cases hmi : m = i
  · subst hmi
    unfold fillStep
    rw [if_neg (by simp [hm])]
  · exact fillStep_notmem st d i m hmi

lemma fillFold_notmem (st : ℕ → Bool) (l : List ℕ) :
    ∀ (d : ℕ → ℚ) (m : ℕ), m ∉ l → (l.foldl (fillStep st) d) m = d m := by
  induction l with
  | nil => intro d m _; rfl
  | cons i t ih =>
    intro d m hm
    have h1 : m ≠ i := fun h => hm (h ▸ List.mem_cons_self i t)
    have h2 : m ∉ t := fun h => hm (List.mem_cons_of_mem i h)
    simp only [List.foldl_cons]
    rw [ih _ m h2]
    exact fillStep_notmem st d i m h1

lemma fillFold_set (st : ℕ → Bool) (l : List ℕ) :
    ∀ (d : ℕ → ℚ) (m : ℕ), st m = true →
      (l.foldl (fillStep st) d) m = d m := by
  induction l with
  | nil => intro d m _; rfl
  | cons i t ih =>
    intro d m hm
    simp only [List.foldl_cons]
    rw [ih _ m hm]
    exact fillStep_set st d i m hm

lemma fillPass_preserve_set (st : ℕ → Bool) (d : ℕ → ℚ) (m : ℕ)
    (hm : st m = true) : fillPass st d m = d m :=
  fillFold_set st (List.range 8) d m hm

lemma fillStep_self (st : ℕ → Bool) (d : ℕ → ℚ) (k : ℕ)
    (hunset : st k = false) :
    fillStep st d k k =
      if st (orientBefore k) ∧ st (orientAfter k)
      then (d (orientBefore k) + d (orientAfter k)) / 2 else d k := by
  unfold fillStep
  rw [if_pos hunset]
  by_cases hba : st (orientBefore k) ∧ st (orientAfter k)
  · rw [if_pos hba, if_pos hba, updateFn_same]
  · rw [if_neg hba, if_neg hba]

/-- The value of an unset slot after the gap-filling pass: the mean of its
two ring neighbours when both are set, its pre-pass value otherwise. -/
lemma fillPass_eq (st : ℕ → Bool) (d : ℕ → ℚ) (k : ℕ) (hk : k < 8)
    (hunset : st k = false) :
    fillPass st d k =
      if st (orientBefore k) ∧ st (orientAfter k)
      then (d (orientBefore k) + d (orientAfter k)) / 2 else d k := by
  unfold fillPass
  have hsplit : List.range' (0 + 1 * k) (8 - k) 1 =
      k :: List.range' (k + 1) (8 - k - 1) := by
    rw [show 0 + 1 * k = k by omega]
    conv_lhs => rw [show 8 - k = (8 - k - 1) + 1 by omega]
    rw [List.range'_succ]
  have hdecomp : List.range 8 =
      List.range' 0 k ++ k :: List.range' (k + 1) (8 - k - 1) := by
    rw [List.range_eq_range']
    conv_lhs => rw [show (8 : ℕ) = (8 - k) + k by omega,
      ← List.range'_append 0 k (8 - k) 1]
    rw [hsplit]
  rw [hdecomp, List.foldl_append]
  simp only [List.foldl_cons]
  have hknot : k ∉ List.range' 0 k := by
    intro h
    rw [List.mem_range'] at h
    omega
  have hknot2 : k ∉ List.range' (k + 1) (8 - k - 1) := by
    intro h
    rw [List.mem_range'] at h
    omega
  rw [fillFold_notmem st _ _ k hknot2]
  have hd1k : (List.foldl (fillStep st) d (List.range' 0 k)) k = d k :=
    fillFold_notmem st _ d k hknot
  rw [fillStep_self st _ k hunset]
  by_cases hba : st (orientBefore k) ∧ st (orientAfter k)
  · rw [if_pos hba, if_pos hba]
    rw [fillFold_set st _ d _ hba.1, fillFold_set st _ d _ hba.2]
  · rw [if_neg hba, if_neg hba]
    exact hd1k

lemma hasValid_iff (s : ProxState) :
    hasValid s = true ↔ ∃ i, i < s.num_sectors ∧ s.distance_valid i = true := by
  unfold hasValid
  rw [List.any_eq_true]
  constructor
  · rintro ⟨i, hi, hv⟩
    exact ⟨i, List.mem_range.mp hi, hv⟩
  · rintro ⟨i, hi, hv⟩
    exact ⟨i, List.mem_range.mpr hi, hv⟩

/-- C3 (as implemented): the bucketing pass of `get_distances` buckets each
valid sector sample by `int16_t orientation = _angle[i] / 45` (truncation
toward zero, which agrees with `floor` for non-negative angles); slot `k`
ends marked set exactly when some valid sample truncates into bucket `k`
with a distance below the maximum; an unset slot keeps the maximum; a set
slot holds the distance of one of its bucket's samples, and every overwrite
happened only on a strictly smaller distance, so the final slot value is a
lower bound of all of the bucket's sample distances. -/
theorem C3_bucketing (s : ProxState) (k : ℕ) (hk : k < 8) :
    ((bucketPass s).2 k = true ↔ ∃ i, i < s.num_sectors ∧
        s.distance_valid i = true ∧ truncZ (s.angle i / 45) = (k : ℤ) ∧
        s.distance i < s.distance_max)
    ∧ ((bucketPass s).2 k = false → (bucketPass s).1 k = s.distance_max)
    ∧ ((bucketPass s).2 k = true → ∃ i, i < s.num_sectors ∧
        s.distance_valid i = true ∧ truncZ (s.angle i / 45) = (k : ℤ) ∧
        (bucketPass s).1 k = s.distance i)
    ∧ (∀ i, i < s.num_sectors → s.distance_valid i = true →
        truncZ (s.angle i / 45) = (k : ℤ) →
        (bucketPass s).1 k ≤ s.distance i) := by
  obtain ⟨h1, h2, h3, h4, _⟩ := bucketPass_inv s k hk
  exact ⟨h1, h2, h3, h4⟩

/-- C5: after the bucketing pass, a still-unset orientation whose two ring
neighbours are both set is output as the arithmetic mean of the neighbours'
bucketed distances; with fewer than two set neighbours it is output at the
maximum-range default — in particular an unset orientation whose clockwise
neighbour is also unset stays at the maximum, so no slot of a run of two or
more consecutive unset orientations is interpolated. -/
theorem C5_gap_fill (s : ProxState) (arr : DistanceArray)
    (harr : get_distances s = some arr) (k : ℕ) (hk : k < 8)
    (hunset : (bucketPass s).2 k = false) :
    (((bucketPass s).2 (orientBefore k) = true ∧
        (bucketPass s).2 (orientAfter k) = true) →
      arr.distance k = ((bucketPass s).1 (orientBefore k) +
        (bucketPass s).1 (orientAfter k)) / 2)
    ∧ (¬((bucketPass s).2 (orientBefore k) = true ∧
        (bucketPass s).2 (orientAfter k) = true) →
      arr.distance k = s.distance_max)
    ∧ ((bucketPass s).2 (orientAfter k) = false →
      arr.distance k = s.distance_max) := by
  have hdist : arr.distance = fillPass (bucketPass s).2 (bucketPass s).1 := by
    unfold get_distances at harr
    by_cases hv : hasValid s
    · rw [if_pos hv] at harr
      obtain rfl := (Option.some_inj.mp harr).symm
      rfl
    · rw [if_neg hv] at harr
      exact Option.noConfusion harr
  have hfill := fillPass_eq (bucketPass s).2 (bucketPass s).1 k hk hunset
  obtain ⟨_, h2, _, _, _⟩ := bucketPass_inv s k hk
  refine ⟨?_, ?_, ?_⟩
  · intro hba
    rw [hdist, hfill, if_pos hba]
  · intro hba
    rw [hdist, hfill, if_neg hba]
    exact h2 hunset
  · intro hafter
    have hba : ¬((bucketPass s).2 (orientBefore k) = true ∧
        (bucketPass s).2 (orientAfter k) = true) := by
      rintro ⟨_, hcontra⟩
      rw [hafter] at hcontra
      exact Bool.noConfusion hcontra
    rw [hdist, hfill, if_neg hba]
    exact h2 hunset

lemma bucketStep_id (s : ProxState) (acc : (ℕ → ℚ) × (ℕ → Bool)) (i : ℕ)
    (h : s.distance_valid i = true →
      ¬(0 ≤ truncZ (s.angle i / 45) ∧ truncZ (s.angle i / 45) < 8)) :
    bucketStep s acc i = acc := by
  unfold bucketStep
  by_cases hv : s.distance_valid i = true
  · rw [if_pos hv, if_neg]
    rintro ⟨hc1, hc2, _⟩
    exact h hv ⟨hc1, hc2⟩
  · rw [if_neg hv]

lemma bucketFold_id (s : ProxState) (l : List ℕ)
    (h : ∀ i ∈ l, s.distance_valid i = true →
      ¬(0 ≤ truncZ (s.angle i / 45) ∧ truncZ (s.angle i / 45) < 8)) :
    ∀ acc, l.foldl (bucketStep s) acc = acc := by
  induction l with
  | nil => intro acc; rfl
  | cons i t ih =>
    intro acc
    simp only [List.foldl_cons]
    rw [bucketStep_id s acc i (h i (List.mem_cons_self i t))]
    exact ih (fun j hj => h j (List.mem_cons_of_mem i hj)) acc

lemma fillFold_allFalse (st : ℕ → Bool) (hst : ∀ m, st m = false)
    (l : List ℕ) : ∀ d, l.foldl (fillStep st) d = d := by
  induction l with
  | nil => intro d; rfl
  | cons i t ih =>
    intro d
    simp only [List.foldl_cons]
    have hid : fillStep st d i = d := by
      unfold fillStep
      rw [if_pos (hst i), if_neg]
      rintro ⟨hcontra, _⟩
      rw [hst (orientBefore i)] at hcontra
      exact Bool.noConfusion hcontra
    rw [hid]
    exact ih d

/-- C10: `get_distances` succeeds whenever at least one sector holds a valid
sample, even when every valid sample's computed orientation bucket falls
outside [0, 8): the output then carries orientation value `k` and the
maximum-range distance in every slot `k`, no slot having been marked set. -/
theorem C10_degenerate_success (s : ProxState)
    (hvalid : ∃ i, i < s.num_sectors ∧ s.distance_valid i = true)
    (hout : ∀ i, i < s.num_sectors → s.distance_valid i = true →
      ¬(0 ≤ truncZ (s.angle i / 45) ∧ truncZ (s.angle i / 45) < 8)) :
    ∃ arr, get_distances s = some arr ∧ ∀ k, k < 8 →
      arr.direction k = k ∧ arr.distance k = s.distance_max ∧
      (bucketPass s).2 k = false := by
  have hbp : bucketPass s = ((fun _ => s.distance_max), (fun _ => false)) := by
    unfold bucketPass
    exact bucketFold_id s (List.range s.num_sectors)
      (fun i hi => hout i (List.mem_range.mp hi)) _
  have hhv : hasValid s = true := (hasValid_iff s).mpr hvalid
  refine ⟨_, by unfold get_distances; rw [if_pos hhv], ?_⟩
  intro k hk
  refine ⟨rfl, ?_, ?_⟩
  · show fillPass (bucketPass s).2 (bucketPass s).1 k = s.distance_max
    rw [hbp]
    unfold fillPass
    rw [fillFold_allFalse (fun _ => false) (fun _ => rfl) (List.range 8)]
  · rw [hbp]

/-- C6: `get_boundary_points` yields a boundary exactly when the shared
status is Good and every sector holds a valid sample, and then reports
`num_points = _num_sectors` with the stored boundary-point array; otherwise
it fails (modelled `none`, for the `nullptr` / `num_points = 0` return). -/
theorem C6_get_boundary_points (s : ProxState) :
    ((∃ r, get_boundary_points s = some r) ↔
      (s.status = ProximityStatus.Good ∧
        ∀ i, i < s.num_sectors → s.distance_valid i = true))
    ∧ (∀ pts n, get_boundary_points s = some (pts, n) →
        n = s.num_sectors ∧ pts = s.boundary_point) := by
  unfold get_boundary_points
  by_cases hst : s.status = ProximityStatus.Good
  · rw [if_neg (by simpa using hst)]
    by_cases hall : ∀ i, i < s.num_sectors → s.distance_valid i = true
    · have hcond : (List.range s.num_sectors).all
          (fun i => s.distance_valid i) = true := by
        rw [List.all_eq_true]
        intro i hi
        exact hall i (List.mem_range.mp hi)
      rw [if_pos hcond]
      refine ⟨⟨fun _ => ⟨hst, hall⟩, fun _ => ⟨_, rfl⟩⟩, ?_⟩
      intro pts n h
      obtain ⟨h1, h2⟩ := Prod.mk.injEq .. ▸ Option.some_inj.mp h
      exact ⟨h2.symm, h1.symm⟩
    · have hcond : ¬((List.range s.num_sectors).all
          (fun i => s.distance_valid i) = true) := by
        rw [List.all_eq_true]
        intro hcontra
        exact hall (fun i hi => hcontra i (List.mem_range.mpr hi))
      rw [if_neg hcond]
      refine ⟨⟨?_, ?_⟩, ?_⟩
      · rintro ⟨r, hr⟩
        exact Option.noConfusion hr
      · rintro ⟨_, h⟩
        exact absurd h hall
      · intro pts n h
        exact Option.noConfusion h
  · rw [if_pos (by simpa using hst)]
    refine ⟨⟨?_, ?_⟩, ?_⟩
    · rintro ⟨r, hr⟩
      exact Option.noConfusion hr
    · rintro ⟨h, _⟩
      exact absurd h hst
    · intro pts n h
      exact Option.noConfusion h

/-- C8: each boolean-failure query leaves its caller-supplied output
parameters unmodified on a `false` return.  (All four are `const` methods of
the backend: in this embedding they are pure functions of the state, so no
failure path can mutate the core's own state by construction.) -/
theorem C8_failure_leaves_outputs (s : ProxState)
    (angle_deg d0 a1 d1 a2 d2 : ℚ) (object_number : ℕ)
    (soe : ℕ) (sa out0 : ℤ) :
    ((get_horizontal_distance s angle_deg d0).1 = false →
      (get_horizontal_distance s angle_deg d0).2 = d0)
    ∧ ((get_closest_object s a1 d1).1 = false →
      (get_closest_object s a1 d1).2 = (a1, d1))
    ∧ ((get_object_angle_and_distance s object_number a2 d2).1 = false →
      (get_object_angle_and_distance s object_number a2 d2).2 = (a2, d2))
    ∧ ((get_next_ignore_io s soe sa out0).1 = false →
      (get_next_ignore_io s soe sa out0).2 = out0) := by
  refine ⟨?_, ?_, ?_, ?_⟩
  · unfold get_horizontal_distance
    cases convert_angle_to_sector s angle_deg with
    | none => intro _; rfl
    | some sector =>
      dsimp only
      by_cases hv : s.distance_valid sector = true
      · rw [if_pos hv]
        intro h
        exact absurd h (by simp)
      · rw [if_neg hv]
        intro _
        rfl
  · unfold get_closest_object
    cases (List.range s.num_sectors).foldl (closestStep s) none with
    | none => intro _; rfl
    | some b =>
      intro h
      exact absurd h (by simp)
  · unfold get_object_angle_and_distance
    by_cases hc : object_number < s.num_sectors ∧
        s.distance_valid object_number = true
    · rw [if_pos hc]
      intro h
      exact absurd h (by simp)
    · rw [if_neg hc]
      intro _
      rfl
  · unfold get_next_ignore_io
    cases get_next_ignore_start_or_end s soe sa with
    | none => intro _; rfl
    | some b =>
      intro h
      exact absurd h (by simp)

/-! ### The boundary update blocks -/

lemma lazyInitEdge_fields (s : ProxState) (sector : ℕ) :
    (lazyInitEdge s sector).num_sectors = s.num_sectors ∧
    (lazyInitEdge s sector).distance = s.distance ∧
    (lazyInitEdge s sector).distance_valid = s.distance_valid ∧
    (lazyInitEdge s sector).boundary_point = s.boundary_point ∧
    (lazyInitEdge s sector).boundary_dist_min = s.boundary_dist_min := by
  unfold lazyInitEdge
  split_ifs <;> exact ⟨rfl, rfl, rfl, rfl, rfl⟩

lemma lazyInitEdge_edge_zero (s : ProxState) (sector : ℕ)
    (hz : s.sector_edge_vector sector = ((0 : ℝ), (0 : ℝ))) :
    (lazyInitEdge s sector).sector_edge_vector sector =
      (Real.cos (radiansQ (s.sector_middle_deg sector +
          s.sector_width_deg sector / 2)) * 100,
       Real.sin (radiansQ (s.sector_middle_deg sector +
          s.sector_width_deg sector / 2)) * 100) := by
  unfold lazyInitEdge
  rw [if_pos hz]
  simp

lemma lazyInitEdge_edge_ne (s : ProxState) (sector j : ℕ) (h : j ≠ sector) :
    (lazyInitEdge s sector).sector_edge_vector j =
      s.sector_edge_vector j := by
  unfold lazyInitEdge
  split_ifs
  · simp [h]
  · rfl

lemma updateBoundaryCW_fields (s : ProxState) (sector : ℕ) :
    (updateBoundaryCW s sector).num_sectors = s.num_sectors ∧
    (updateBoundaryCW s sector).distance = s.distance ∧
    (updateBoundaryCW s sector).distance_valid = s.distance_valid ∧
    (updateBoundaryCW s sector).sector_edge_vector = s.sector_edge_vector := by
  unfold updateBoundaryCW
  split_ifs <;> exact ⟨rfl, rfl, rfl, rfl⟩

lemma updateBoundaryCW_bp (s : ProxState) (sector : ℕ)
    (hv : s.distance_valid sector = true ∧
      s.distance_valid (nextSector s sector) = true) :
    (updateBoundaryCW s sector).boundary_point sector =
      vscale (s.sector_edge_vector sector)
        ((if min (s.distance sector) (s.distance (nextSector s sector)) <
              s.boundary_dist_min
          then s.boundary_dist_min
          else min (s.distance sector)
            (s.distance (nextSector s sector)) : ℚ) : ℝ) := by
  unfold updateBoundaryCW
  rw [if_pos (by simpa using hv)]
  simp

lemma updateBoundaryCW_bp_ne (s : ProxState) (sector j : ℕ)
    (h : j ≠ sector) :
    (updateBoundaryCW s sector).boundary_point j = s.boundary_point j := by
  unfold updateBoundaryCW
  split_ifs
  · simp [h]
  · rfl

lemma updateBoundaryCCW_fields (s : ProxState) (sector : ℕ) :
    (updateBoundaryCCW s sector).num_sectors = s.num_sectors ∧
    (updateBoundaryCCW s sector).distance = s.distance ∧
    (updateBoundaryCCW s sector).distance_valid = s.distance_valid ∧
    (updateBoundaryCCW s sector).sector_edge_vector =
      s.sector_edge_vector := by
  unfold updateBoundaryCCW
  split_ifs <;> exact ⟨rfl, rfl, rfl, rfl⟩

lemma updateBoundaryCCW_bp (s : ProxState) (sector : ℕ)
    (hv : s.distance_valid (prevSector s sector) = true ∧
      s.distance_valid sector = true) :
    (updateBoundaryCCW s sector).boundary_point (prevSector s sector) =
      vscale (s.sector_edge_vector (prevSector s sector))
        ((min (s.distance (prevSector s sector)) (s.distance sector) : ℚ) :
          ℝ) := by
  unfold updateBoundaryCCW
  rw [if_pos (by simpa using hv)]
  simp

lemma updateBoundaryCCW_bp_ne (s : ProxState) (sector j : ℕ)
    (h : j ≠ prevSector s sector) :
    (updateBoundaryCCW s sector).boundary_point j = s.boundary_point j := by
  unfold updateBoundaryCCW
  split_ifs
  · simp [h]
  · rfl

lemma nextSector_congr (s t : ProxState) (sector : ℕ)
    (h : t.num_sectors = s.num_sectors) :
    nextSector t sector = nextSector s sector := by
  unfold nextSector
  rw [h]

lemma prevSector_congr (s t : ProxState) (sector : ℕ)
    (h : t.num_sectors = s.num_sectors) :
    prevSector t sector = prevSector s sector := by
  unfold prevSector
  rw [h]

lemma if_floor_eq_max (a b : ℚ) : (if a < b then b else a) = max a b := by
  split_ifs with h
  · exact (max_eq_right (le_of_lt h)).symm
  · exact (max_eq_left (not_lt.mp h)).symm

/-- C2: with at least two sectors and a valid sector index, when the sector
and its clockwise neighbour both hold valid samples the call leaves
`BoundaryPoint[sector]` at the sector's edge vector scaled by
`max(min(distance[sector], distance[next]), PROXIMITY_BOUNDARY_DIST_MIN)`,
and when the sector and its counter-clockwise neighbour both hold valid
samples it leaves `BoundaryPoint[prev]` at the previous sector's edge vector
scaled by the unfloored `min(distance[prev], distance[sector])` — the floor
is applied only in the first branch. -/
theorem C2_boundary_asymmetry (s : ProxState) (sector : ℕ)
    (hn : 2 ≤ s.num_sectors) (hs : sector < s.num_sectors) :
    (s.distance_valid sector = true ∧
        s.distance_valid (nextSector s sector) = true →
      (update_boundary_for_sector s sector).boundary_point sector =
        vscale
          ((update_boundary_for_sector s sector).sector_edge_vector sector)
          ((max (min (s.distance sector) (s.distance (nextSector s sector)))
              s.boundary_dist_min : ℚ) : ℝ))
    ∧ (s.distance_valid (prevSector s sector) = true ∧
        s.distance_valid sector = true →
      (update_boundary_for_sector s sector).boundary_point
          (prevSector s sector) =
        vscale
          ((update_boundary_for_sector s sector).sector_edge_vector
            (prevSector s sector))
          ((min (s.distance (prevSector s sector)) (s.distance sector) : ℚ) :
            ℝ)) := by
  obtain ⟨hLn, hLd, hLv, hLb, hLm⟩ := lazyInitEdge_fields s sector
  obtain ⟨hWn, hWd, hWv, hWe⟩ :=
    updateBoundaryCW_fields (lazyInitEdge s sector) sector
  obtain ⟨hUn, hUd, hUv, hUe⟩ :=
    updateBoundaryCCW_fields (updateBoundaryCW (lazyInitEdge s sector) sector)
      sector
  have hnextL : nextSector (lazyInitEdge s sector) sector =
      nextSector s sector := nextSector_congr s _ sector hLn
  have hprevW : prevSector (updateBoundaryCW (lazyInitEdge s sector) sector)
      sector = prevSector s sector :=
    prevSector_congr s _ sector (hWn.trans hLn)
  have hprev_ne : prevSector s sector ≠ sector := by
    unfold prevSector
    split_ifs with h
    · omega
    · omega
  have hguard : ¬(sector ≥ s.num_sectors) := by omega
  have hunf : update_boundary_for_sector s sector =
      updateBoundaryCCW (updateBoundaryCW (lazyInitEdge s sector) sector)
        sector := by
    unfold update_boundary_for_sector
    rw [if_neg hguard]
  constructor
  · rintro ⟨hv1, hv2⟩
    rw [hunf]
    rw [updateBoundaryCCW_bp_ne _ sector sector
      (by rw [hprevW]; exact hprev_ne.symm)]
    rw [updateBoundaryCW_bp _ sector
      (by rw [hLv, hnextL]; exact ⟨hv1, hv2⟩)]
    rw [hUe, hWe]
    rw [hnextL, hLd, hLm, if_floor_eq_max]
  · rintro ⟨hv1, hv2⟩
    rw [hunf, ← hprevW]
    rw [updateBoundaryCCW_bp _ sector
      (by rw [hWv, hLv, hprevW]; exact ⟨hv1, hv2⟩)]
    rw [hUe, hWe, hWd, hLd, hprevW]

/-- C1 (as implemented): on a valid sector index whose cached edge vector is
still zero, the call stores the cosine and sine of the radian angle
`middle_deg + width_deg/2` scaled by 100, so the resulting vector has length
100 — one hundred times a unit vector, not unit length. -/
theorem C1_edge_vector (s : ProxState) (sector : ℕ)
    (hs : sector < s.num_sectors)
    (hz : s.sector_edge_vector sector = ((0 : ℝ), (0 : ℝ))) :
    (update_boundary_for_sector s sector).sector_edge_vector sector =
      (Real.cos (radiansQ (s.sector_middle_deg sector +
          s.sector_width_deg sector / 2)) * 100,
       Real.sin (radiansQ (s.sector_middle_deg sector +
          s.sector_width_deg sector / 2)) * 100)
    ∧ Real.sqrt
        (((update_boundary_for_sector s sector).sector_edge_vector sector).1
            ^ 2 +
         ((update_boundary_for_sector s sector).sector_edge_vector sector).2
            ^ 2) = 100 := by
  have hguard : ¬(sector ≥ s.num_sectors) := by omega
  have hunf : update_boundary_for_sector s sector =
      updateBoundaryCCW (updateBoundaryCW (lazyInitEdge s sector) sector)
        sector := by
    unfold update_boundary_for_sector
    rw [if_neg hguard]
  obtain ⟨_, _, _, hWe⟩ :=
    updateBoundaryCW_fields (lazyInitEdge s sector) sector
  obtain ⟨_, _, _, hUe⟩ :=
    updateBoundaryCCW_fields (updateBoundaryCW (lazyInitEdge s sector) sector)
      sector
  have hedge : (update_boundary_for_sector s sector).sector_edge_vector
      sector =
      (Real.cos (radiansQ (s.sector_middle_deg sector +
          s.sector_width_deg sector / 2)) * 100,
       Real.sin (radiansQ (s.sector_middle_deg sector +
          s.sector_width_deg sector / 2)) * 100) := by
    rw [hunf, hUe, hWe]
    exact lazyInitEdge_edge_zero s sector hz
  refine ⟨hedge, ?_⟩
  rw [hedge]
  have hsum : (Real.cos (radiansQ (s.sector_middle_deg sector +
      s.sector_width_deg sector / 2)) * 100) ^ 2 +
      (Real.sin (radiansQ (s.sector_middle_deg sector +
        s.sector_width_deg sector / 2)) * 100) ^ 2 = 10000 := by
    have hcs := Real.cos_sq_add_sin_sq (radiansQ (s.sector_middle_deg sector +
      s.sector_width_deg sector / 2))
    nlinarith [hcs]
  rw [show ((Real.cos (radiansQ (s.sector_middle_deg sector +
      s.sector_width_deg sector / 2)) * 100,
      Real.sin (radiansQ (s.sector_middle_deg sector +
        s.sector_width_deg sector / 2)) * 100) : ℝ × ℝ).1 =
      Real.cos (radiansQ (s.sector_middle_deg sector +
        s.sector_width_deg sector / 2)) * 100 from rfl]
  rw [show ((Real.cos (radiansQ (s.sector_middle_deg sector +
      s.sector_width_deg sector / 2)) * 100,
      Real.sin (radiansQ (s.sector_middle_deg sector +
        s.sector_width_deg sector / 2)) * 100) : ℝ × ℝ).2 =
      Real.sin (radiansQ (s.sector_middle_deg sector +
        s.sector_width_deg sector / 2)) * 100 from rfl]
  rw [hsum]
  rw [show (10000 : ℝ) = 100 ^ 2 by norm_num]
  exact Real.sqrt_sq (by norm_num)

/-! ### The ignore-zone boundary scan -/

/-- Invariant of the `get_next_ignore_start_or_end` scan after the zones
below `i` have been examined: no candidate exists exactly when all examined
zones have zero width; otherwise the candidate pair holds the boundary angle
of some examined nonzero-width zone together with its wrapped clockwise
distance from `start_angle`, minimal among the examined zones and strictly
smaller than every earlier zone's (first-wins tie-breaking). -/
def ignoreInv (s : ProxState) (soe : ℕ) (sa : ℤ) (i : ℕ) :
    Option (ℤ × ℤ) → Prop
  | none => ∀ m, m < i → s.ignore_width_deg m = 0
  | some p => ∃ m, m < i ∧ s.ignore_width_deg m ≠ 0 ∧
      p.2 = ignoreBoundary s soe m ∧
      p.1 = wrap360i (ignoreBoundary s soe m - sa) ∧
      (∀ j, j < i → s.ignore_width_deg j ≠ 0 →
        p.1 ≤ wrap360i (ignoreBoundary s soe j - sa)) ∧
      (∀ j, j < m → s.ignore_width_deg j ≠ 0 →
        p.1 < wrap360i (ignoreBoundary s soe j - sa))

lemma ignoreStep_inv (s : ProxState) (soe : ℕ) (sa : ℤ) (i : ℕ)
    (acc : Option (ℤ × ℤ)) (h : ignoreInv s soe sa i acc) :
    ignoreInv s soe sa (i + 1) (ignoreStep s soe sa acc i) := by
  unfold ignoreStep
  by_cases hw : s.ignore_width_deg i ≠ 0
  · rw [if_pos hw]
    cases acc with
    | none =>
      refine ⟨i, Nat.lt_succ_self i, hw, rfl, rfl, ?_, ?_⟩
      · intro j hj hjw
        rcases Nat.lt_succ_iff_lt_or_eq.mp hj with hj | rfl
        · exact absurd (h j hj) hjw
        · exact le_rfl
      · intro j hj hjw
        exact absurd (h j hj) hjw
    | some p =>
      obtain ⟨sd, sb⟩ := p
      obtain ⟨m, hm, hmw, hb, hd, hle, hlt⟩ := h
      dsimp only at hb hd hle hlt ⊢
      by_cases hnew : wrap360i (ignoreBoundary s soe i - sa) < sd
      · rw [if_pos hnew]
        refine ⟨i, Nat.lt_succ_self i, hw, rfl, rfl, ?_, ?_⟩
        · intro j hj hjw
          rcases Nat.lt_succ_iff_lt_or_eq.mp hj with hj | rfl
          · exact le_of_lt (lt_of_lt_of_le hnew (hle j hj hjw))
          · exact le_rfl
        · intro j hj hjw
          exact lt_of_lt_of_le hnew (hle j hj hjw)
      · rw [if_neg hnew]
        refine ⟨m, lt_trans hm (Nat.lt_succ_self i), hmw, hb, hd, ?_, hlt⟩
        intro j hj hjw
        rcases Nat.lt_succ_iff_lt_or_eq.mp hj with hj | rfl
        · exact hle j hj hjw
        · exact not_lt.mp hnew
  · rw [if_neg hw]
    have hw0 : s.ignore_width_deg i = 0 := by omega
    cases acc with
    | none =>
      intro m hm
      rcases Nat.lt_succ_iff_lt_or_eq.mp hm with hm | rfl
      · exact h m hm
      · exact hw0
    | some p =>
      obtain ⟨m, hm, hmw, hb, hd, hle, hlt⟩ := h
      refine ⟨m, lt_trans hm (Nat.lt_succ_self i), hmw, hb, hd, ?_, hlt⟩
      intro j hj hjw
      rcases Nat.lt_succ_iff_lt_or_eq.mp hj with hj | rfl
      · exact hle j hj hjw
      · exact absurd hw0 hjw

lemma ignoreFold_inv (s : ProxState) (soe : ℕ) (sa : ℤ) (k : ℕ) :
    ∀ (i : ℕ) (acc : Option (ℤ × ℤ)), ignoreInv s soe sa i acc →
      ignoreInv s soe sa (i + k)
        ((List.range' i k).foldl (ignoreStep s soe sa) acc) := by
  induction k with
  | zero =>
    intro i acc h
    simpa using h
  | succ k ih =>
    intro i acc h
    rw [List.range'_succ]
    simp only [List.foldl_cons]
    rw [show i + (k + 1) = (i + 1) + k by omega]
    exact ih (i + 1) _ (ignoreStep_inv s soe sa i acc h)

lemma ignore_inv_final (s : ProxState) (soe : ℕ) (sa : ℤ) :
    ignoreInv s soe sa s.max_ignore
      ((List.range s.max_ignore).foldl (ignoreStep s soe sa) none) := by
  rw [List.range_eq_range']
  have h0 : ignoreInv s soe sa 0 none :=
    fun m hm => absurd hm (Nat.not_lt_zero m)
  simpa using ignoreFold_inv s soe sa s.max_ignore 0 none h0

/-- C9 (as implemented): `get_next_ignore_start_or_end` fails exactly when
no zone has nonzero width; otherwise it returns the boundary angle of a
nonzero-width zone — `wrap_360(center ∓ width/2)` truncated to integer by
the `int16_t` conversion — whose wrapped clockwise distance from the given
start angle is minimal, with ties broken in favour of the first zone
scanned. -/
theorem C9_next_ignore_boundary (s : ProxState) (soe : ℕ) (sa : ℤ) :
    (get_next_ignore_start_or_end s soe sa = none ↔
      ∀ i, i < s.max_ignore → s.ignore_width_deg i = 0)
    ∧ (∀ b, get_next_ignore_start_or_end s soe sa = some b →
        ∃ m, m < s.max_ignore ∧ s.ignore_width_deg m ≠ 0 ∧
          b = ⌊wrap360q ((s.ignore_angle_deg m : ℚ) +
            (if soe = 0 then -(s.ignore_width_deg m : ℚ)
             else (s.ignore_width_deg m : ℚ)) / 2)⌋ ∧
          (∀ j, j < s.max_ignore → s.ignore_width_deg j ≠ 0 →
            wrap360i (b - sa) ≤
              wrap360i (ignoreBoundary s soe j - sa)) ∧
          (∀ j, j < m → s.ignore_width_deg j ≠ 0 →
            wrap360i (b - sa) <
              wrap360i (ignoreBoundary s soe j - sa))) := by
  have hinv := ignore_inv_final s soe sa
  unfold get_next_ignore_start_or_end
  cases hfold : (List.range s.max_ignore).foldl (ignoreStep s soe sa) none with
  | none =>
    rw [hfold] at hinv
    refine ⟨⟨fun _ => fun m hm => hinv m hm, fun _ => rfl⟩, ?_⟩
    intro b hb
    exact Option.noConfusion hb
  | some p =>
    rw [hfold] at hinv
    obtain ⟨m, hm, hmw, hb, hd, hle, hlt⟩ := hinv
    refine ⟨⟨fun h => Option.noConfusion h, ?_⟩, ?_⟩
    · intro hall
      exact absurd (hall m hm) hmw
    · intro b hbeq
      have hbp : b = p.2 := (Option.some_inj.mp hbeq).symm
      have hcw : wrap360i (b - sa) = p.1 := by
        rw [hbp, hb, ← hd]
      refine ⟨m, hm, hmw, ?_, ?_, ?_⟩
      · rw [hbp, hb]
        rfl
      · intro j hj hjw
        rw [hcw]
        exact hle j hj hjw
      · intro j hj hjw
        rw [hcw]
        exact hlt j hj hjw

/-! ### Concrete states for witnesses and counterexamples -/

/-- An 8-sector configuration (middles 0°,45°,…,315°, widths 45°) with valid
samples in sectors 0 (bearing 10°, 10 m) and 2 (bearing 100°, 20 m), one
ignore zone centred at 90° of width 20°. -/
def wStd : ProxState where
  num_sectors := 8
  sector_middle_deg := fun i => 45 * i
  sector_width_deg := fun _ => 45
  distance_valid := fun i => i == 0 || i == 2
  distance := fun i => if i = 0 then 10 else if i = 2 then 20 else 0
  angle := fun i => if i = 0 then 10 else if i = 2 then 100 else 0
  sector_edge_vector := fun _ => ((1 : ℝ), (0 : ℝ))
  boundary_point := fun _ => ((0 : ℝ), (0 : ℝ))
  status := ProximityStatus.Good
  distance_max := 100
  boundary_dist_min := 6 / 10
  max_ignore := 6
  ignore_angle_deg := fun _ => 90
  ignore_width_deg := fun i => if i = 0 then 20 else 0

/-- A 2-sector configuration with no valid sample and no ignore zone. -/
def wEmpty : ProxState where
  num_sectors := 2
  sector_middle_deg := fun i => 180 * i
  sector_width_deg := fun _ => 180
  distance_valid := fun _ => false
  distance := fun _ => 0
  angle := fun _ => 0
  sector_edge_vector := fun _ => ((1 : ℝ), (0 : ℝ))
  boundary_point := fun _ => ((0 : ℝ), (0 : ℝ))
  status := ProximityStatus.Good
  distance_max := 100
  boundary_dist_min := 6 / 10
  max_ignore := 6
  ignore_angle_deg := fun _ => 0
  ignore_width_deg := fun _ => 0

/-- A 2-sector configuration with every sector valid and Good status. -/
def wAll : ProxState where
  num_sectors := 2
  sector_middle_deg := fun i => 180 * i
  sector_width_deg := fun _ => 180
  distance_valid := fun _ => true
  distance := fun _ => 25
  angle := fun i => 180 * i
  sector_edge_vector := fun _ => ((1 : ℝ), (0 : ℝ))
  boundary_point := fun _ => ((3 : ℝ), (4 : ℝ))
  status := ProximityStatus.Good
  distance_max := 100
  boundary_dist_min := 6 / 10
  max_ignore := 6
  ignore_angle_deg := fun _ => 0
  ignore_width_deg := fun _ => 0

/-- Two adjacent valid sectors with distances 50 and 300 and a minimum
boundary distance of 60 (the spec's boundary example), with nonzero cached
edge vectors. -/
def wC2 : ProxState where
  num_sectors := 2
  sector_middle_deg := fun i => 180 * i
  sector_width_deg := fun _ => 180
  distance_valid := fun _ => true
  distance := fun i => if i = 0 then 50 else 300
  angle := fun i => 180 * i
  sector_edge_vector := fun i => if i = 0 then ((1 : ℝ), (0 : ℝ))
    else ((0 : ℝ), (1 : ℝ))
  boundary_point := fun _ => ((0 : ℝ), (0 : ℝ))
  status := ProximityStatus.Good
  distance_max := 100
  boundary_dist_min := 60
  max_ignore := 6
  ignore_angle_deg := fun _ => 0
  ignore_width_deg := fun _ => 0

/-- One sector with middle 0° and width 90° whose edge vector is still the
zero vector. -/
def wC1 : ProxState where
  num_sectors := 1
  sector_middle_deg := fun _ => 0
  sector_width_deg := fun _ => 90
  distance_valid := fun _ => false
  distance := fun _ => 0
  angle := fun _ => 0
  sector_edge_vector := fun _ => ((0 : ℝ), (0 : ℝ))
  boundary_point := fun _ => ((0 : ℝ), (0 : ℝ))
  status := ProximityStatus.Good
  distance_max := 100
  boundary_dist_min := 6 / 10
  max_ignore := 6
  ignore_angle_deg := fun _ => 0
  ignore_width_deg := fun _ => 0

/-- One sector with middle 0° and width 0° whose edge vector is still zero:
its derived edge vector is (100, 0), of length 100, not 1. -/
def cexC1 : ProxState where
  num_sectors := 1
  sector_middle_deg := fun _ => 0
  sector_width_deg := fun _ => 0
  distance_valid := fun _ => false
  distance := fun _ => 0
  angle := fun _ => 0
  sector_edge_vector := fun _ => ((0 : ℝ), (0 : ℝ))
  boundary_point := fun _ => ((0 : ℝ), (0 : ℝ))
  status := ProximityStatus.Good
  distance_max := 100
  boundary_dist_min := 6 / 10
  max_ignore := 6
  ignore_angle_deg := fun _ => 0
  ignore_width_deg := fun _ => 0

/-- One valid sector whose stored bearing is -10°: `floor(-10/45) = -1` is
out of range, but the C cast truncates `-10/45` to 0, so the sample lands in
slot 0. -/
def cexC3 : ProxState where
  num_sectors := 1
  sector_middle_deg := fun _ => 0
  sector_width_deg := fun _ => 45
  distance_valid := fun _ => true
  distance := fun _ => 5
  angle := fun _ => -10
  sector_edge_vector := fun _ => ((1 : ℝ), (0 : ℝ))
  boundary_point := fun _ => ((0 : ℝ), (0 : ℝ))
  status := ProximityStatus.Good
  distance_max := 100
  boundary_dist_min := 6 / 10
  max_ignore := 6
  ignore_angle_deg := fun _ => 0
  ignore_width_deg := fun _ => 0

/-- One valid sector whose stored bearing is 400°, truncating to bucket 8,
outside [0, 8). -/
def wOut : ProxState where
  num_sectors := 1
  sector_middle_deg := fun _ => 0
  sector_width_deg := fun _ => 45
  distance_valid := fun _ => true
  distance := fun _ => 7
  angle := fun _ => 400
  sector_edge_vector := fun _ => ((1 : ℝ), (0 : ℝ))
  boundary_point := fun _ => ((0 : ℝ), (0 : ℝ))
  status := ProximityStatus.Good
  distance_max := 50
  boundary_dist_min := 6 / 10
  max_ignore := 6
  ignore_angle_deg := fun _ => 0
  ignore_width_deg := fun _ => 0

/-- A single ignore zone centred at 90° with odd width 21: the exact wrapped
start boundary is 79.5, but the `int16_t` conversion returns 79. -/
def wOdd : ProxState where
  num_sectors := 1
  sector_middle_deg := fun _ => 0
  sector_width_deg := fun _ => 45
  distance_valid := fun _ => false
  distance := fun _ => 0
  angle := fun _ => 0
  sector_edge_vector := fun _ => ((1 : ℝ), (0 : ℝ))
  boundary_point := fun _ => ((0 : ℝ), (0 : ℝ))
  status := ProximityStatus.Good
  distance_max := 100
  boundary_dist_min := 6 / 10
  max_ignore := 6
  ignore_angle_deg := fun _ => 90
  ignore_width_deg := fun i => if i = 0 then 21 else 0

/-- Witness for C1: on `wC1` (sector 0 valid index, zero cached vector), the
derived edge vector has length 100. -/
theorem C1_edge_vector_witness :
    Real.sqrt
      (((update_boundary_for_sector wC1 0).sector_edge_vector 0).1 ^ 2 +
       ((update_boundary_for_sector wC1 0).sector_edge_vector 0).2 ^ 2) =
      100 :=
  (C1_edge_vector wC1 0 (by decide) rfl).2

/-- Witness for C2: the spec's example — adjacent valid distances 50 and
300 with minimum boundary distance 60 give a floored clockwise boundary
magnitude of 60 and an unfloored counter-clockwise one of 50. -/
theorem C2_boundary_asymmetry_witness :
    (update_boundary_for_sector wC2 0).boundary_point 0 =
      vscale ((update_boundary_for_sector wC2 0).sector_edge_vector 0)
        ((60 : ℚ) : ℝ)
    ∧ (update_boundary_for_sector wC2 0).boundary_point 1 =
      vscale ((update_boundary_for_sector wC2 0).sector_edge_vector 1)
        ((50 : ℚ) : ℝ) := by
  have h := C2_boundary_asymmetry wC2 0 (by decide) (by decide)
  have h1 := h.1 ⟨rfl, rfl⟩
  have h2 := h.2 ⟨rfl, rfl⟩
  constructor
  · rw [h1]
    norm_num [wC2, nextSector]
  · have hprev : prevSector wC2 0 = 1 := rfl
    rw [hprev] at h2
    rw [h2]
    norm_num [wC2]

/-- Witness for C3 (amended): on `wStd`, slot 0 ends marked set, since the
valid sample at bearing 10° truncates into bucket 0 with distance 10 below
the maximum 100. -/
theorem C3_bucketing_witness : (bucketPass wStd).2 0 = true :=
  (C3_bucketing wStd 0 (by norm_num)).1.mpr
    ⟨0, by decide, rfl, by norm_num [wStd, truncZ], by norm_num [wStd]⟩

/-- Witness for C4: bearing 100° lies in the window of `wStd`'s sector 2
(middle 90°, half-width 22.5°) and in no earlier sector's window, so the
conversion returns sector 2. -/
theorem C4_convert_witness : convert_angle_to_sector wStd 100 = some 2 := by
  have h := (C4_convert_angle_to_sector wStd 100).2.1 2 (by norm_num)
    (by decide)
  apply h
  · show sectorDiff wStd 100 2 ≤ wStd.sector_width_deg 2 / 2
    norm_num [sectorDiff, wStd, wrap180q, wrap360q, Int.floor_eq_iff]
  · intro m hm
    show ¬ sectorDiff wStd 100 m ≤ wStd.sector_width_deg m / 2
    interval_cases m <;>
      norm_num [sectorDiff, wStd, wrap180q, wrap360q, Int.floor_eq_iff]

/-- Witness for C6: on `wAll` (status Good, both sectors valid) the boundary
is returned. -/
theorem C6_boundary_witness : ∃ r, get_boundary_points wAll = some r :=
  (C6_get_boundary_points wAll).1.mpr ⟨rfl, by decide⟩

/-- Witness for C7: on `wEmpty` (no valid sample) the closest-object query
fails. -/
theorem C7_closest_witness : (get_closest_object wEmpty 7 9).1 = false :=
  (C7_get_closest_object wEmpty 7 9).1.mpr (by decide)

/-- Witness for C8: concrete failing calls of all four queries leave the
threaded output parameters at their prior values. -/
theorem C8_failure_witness :
    (get_horizontal_distance wStd 400 5).2 = 5
    ∧ (get_closest_object wEmpty 7 9).2 = (7, 9)
    ∧ (get_object_angle_and_distance wStd 9 3 4).2 = (3, 4)
    ∧ (get_next_ignore_io wEmpty 0 0 123).2 = 123 := by
  have h1 := C8_failure_leaves_outputs wStd 400 5 7 9 3 4 9 0 0 123
  have h2 := C8_failure_leaves_outputs wEmpty 400 5 7 9 3 4 9 0 0 123
  exact ⟨h1.1 rfl, h2.2.1 rfl, h1.2.2.1 rfl, h2.2.2.2 rfl⟩

/-- Witness for C10: on `wOut` (one valid sample at bearing 400°, bucket 8),
`get_distances` still succeeds and every slot holds its own orientation and
the maximum range. -/
theorem C10_degenerate_witness :
    ∃ arr, get_distances wOut = some arr ∧ ∀ k, k < 8 →
      arr.direction k = k ∧ arr.distance k = wOut.distance_max ∧
      (bucketPass wOut).2 k = false := by
  apply C10_degenerate_success wOut ⟨0, by decide, rfl⟩
  intro i hi _
  have hi1 : i < 1 := hi
  interval_cases i
  · norm_num [wOut, truncZ, Int.floor_eq_iff]

/-- Witness for C5: on `wStd` (set slots 0 and 2, distances 10 and 20),
orientation 1 is output as their mean, 15. -/
theorem C5_gap_fill_witness :
    ∃ arr, get_distances wStd = some arr ∧ arr.distance 1 = 15 := by
  have harr : get_distances wStd =
      some { direction := fun i => i,
             distance := fillPass (bucketPass wStd).2 (bucketPass wStd).1 } := by
    unfold get_distances
    rw [if_pos (show hasValid wStd = true from rfl)]
  have hset1 : (bucketPass wStd).2 1 = false := by
    norm_num [bucketPass, bucketStep, wStd, truncZ, updateFn, List.range_succ,
      (show ((2 : ℤ).toNat = 2) from rfl), (show ((0 : ℤ).toNat = 0) from rfl)]
  have hset0 : (bucketPass wStd).2 0 = true := by
    norm_num [bucketPass, bucketStep, wStd, truncZ, updateFn, List.range_succ,
      (show ((2 : ℤ).toNat = 2) from rfl), (show ((0 : ℤ).toNat = 0) from rfl)]
  have hset2 : (bucketPass wStd).2 2 = true := by
    norm_num [bucketPass, bucketStep, wStd, truncZ, updateFn, List.range_succ,
      (show ((2 : ℤ).toNat = 2) from rfl), (show ((0 : ℤ).toNat = 0) from rfl)]
  have hd0 : (bucketPass wStd).1 0 = 10 := by
    norm_num [bucketPass, bucketStep, wStd, truncZ, updateFn, List.range_succ,
      (show ((2 : ℤ).toNat = 2) from rfl), (show ((0 : ℤ).toNat = 0) from rfl)]
  have hd2 : (bucketPass wStd).1 2 = 20 := by
    norm_num [bucketPass, bucketStep, wStd, truncZ, updateFn, List.range_succ,
      (show ((2 : ℤ).toNat = 2) from rfl), (show ((0 : ℤ).toNat = 0) from rfl)]
  have h := (C5_gap_fill wStd _ harr 1 (by norm_num) hset1).1
    (by rw [show orientBefore 1 = 0 from rfl, show orientAfter 1 = 2 from rfl]
        exact ⟨hset0, hset2⟩)
  refine ⟨_, harr, ?_⟩
  rw [h, show orientBefore 1 = 0 from rfl, show orientAfter 1 = 2 from rfl,
    hd0, hd2]
  norm_num

/-- Witness for C9 (amended): the spec's example — a single zone centred at
90° of width 20 queried for its start boundary from 0° yields the boundary
80, realising the amended claim's characterisation. -/
theorem C9_next_ignore_witness :
    ∃ m, m < wStd.max_ignore ∧ wStd.ignore_width_deg m ≠ 0 ∧
      (80 : ℤ) = ⌊wrap360q ((wStd.ignore_angle_deg m : ℚ) +
        (if (0 : ℕ) = 0 then -(wStd.ignore_width_deg m : ℚ)
         else (wStd.ignore_width_deg m : ℚ)) / 2)⌋ ∧
      (∀ j, j < wStd.max_ignore → wStd.ignore_width_deg j ≠ 0 →
        wrap360i ((80 : ℤ) - 0) ≤ wrap360i (ignoreBoundary wStd 0 j - 0)) ∧
      (∀ j, j < m → wStd.ignore_width_deg j ≠ 0 →
        wrap360i ((80 : ℤ) - 0) < wrap360i (ignoreBoundary wStd 0 j - 0)) :=
  (C9_next_ignore_boundary wStd 0 0).2 80
    (by norm_num [get_next_ignore_start_or_end, ignoreStep, ignoreBoundary,
      wrap360q, wrap360i, wStd, List.range_succ, Int.floor_eq_iff])

/-! ### Counterexamples to the claims as stated -/

/-- Counterexample to C1 as stated: the freshly derived edge vector of
`cexC1` (middle 0°, width 0°) is (100, 0) — the cosine/sine scaled by 100 —
whose length, 100, is not 1: the cached vector is not a unit vector. -/
theorem C1_counterexample :
    (update_boundary_for_sector cexC1 0).sector_edge_vector 0 =
      ((100 : ℝ), (0 : ℝ))
    ∧ Real.sqrt ((100 : ℝ) ^ 2 + (0 : ℝ) ^ 2) ≠ 1 := by
  constructor
  · have hunf : update_boundary_for_sector cexC1 0 =
        updateBoundaryCCW (updateBoundaryCW (lazyInitEdge cexC1 0) 0) 0 := by
      unfold update_boundary_for_sector
      rw [if_neg (by decide)]
    obtain ⟨_, _, _, hWe⟩ := updateBoundaryCW_fields (lazyInitEdge cexC1 0) 0
    obtain ⟨_, _, _, hUe⟩ :=
      updateBoundaryCCW_fields (updateBoundaryCW (lazyInitEdge cexC1 0) 0) 0
    rw [hunf, hUe, hWe, lazyInitEdge_edge_zero cexC1 0 rfl]
    have hrad : radiansQ (cexC1.sector_middle_deg 0 +
        cexC1.sector_width_deg 0 / 2) = 0 := by
      norm_num [radiansQ, cexC1]
    rw [hrad]
    norm_num
  · have h100 : Real.sqrt ((100 : ℝ) ^ 2 + (0 : ℝ) ^ 2) = 100 := by
      rw [show ((100 : ℝ) ^ 2 + (0 : ℝ) ^ 2) = 100 ^ 2 by norm_num]
      exact Real.sqrt_sq (by norm_num)
    rw [h100]
    norm_num

/-- Counterexample to C3 as stated: on `cexC3` the only valid sample has
bearing -10°, whose `floor(angle/45)` bucket is -1, outside [0, 8) — yet the
sample is written into slot 0 (value 5 instead of the maximum 100), because
the C cast truncates -10/45 to 0 rather than flooring it to -1. -/
theorem C3_counterexample :
    (∃ arr, get_distances cexC3 = some arr ∧ arr.distance 0 = 5)
    ∧ ⌊cexC3.angle 0 / 45⌋ = -1
    ∧ cexC3.distance_max = 100
    ∧ ((5 : ℚ) ≠ 100) := by
  have hinv := bucketPass_inv cexC3 0 (by norm_num)
  have ht : truncZ (cexC3.angle 0 / 45) = (0 : ℤ) := by
    norm_num [cexC3, truncZ, Int.ceil_eq_iff]
  have hset : (bucketPass cexC3).2 0 = true :=
    hinv.1.mpr ⟨0, by decide, rfl, ht, by norm_num [cexC3]⟩
  have hd : (bucketPass cexC3).1 0 = 5 := by
    obtain ⟨j, hj, _, _, hjd⟩ := hinv.2.2.1 hset
    have hj1 : j < 1 := hj
    interval_cases j
    exact hjd
  have harr : get_distances cexC3 =
      some { direction := fun i => i,
             distance := fillPass (bucketPass cexC3).2 (bucketPass cexC3).1 } := by
    unfold get_distances
    rw [if_pos (show hasValid cexC3 = true from rfl)]
  refine ⟨⟨_, harr, ?_⟩, ?_, rfl, by norm_num⟩
  · show fillPass (bucketPass cexC3).2 (bucketPass cexC3).1 0 = 5
    rw [fillPass_preserve_set _ _ _ hset, hd]
  · norm_num [cexC3]

/-- Counterexample to C9 as stated: for the zone centred at 90° with odd
width 21, the exact wrapped start boundary `center - width/2` is 79.5, but
the function returns the `int16_t`-truncated 79. -/
theorem C9_counterexample :
    get_next_ignore_start_or_end wOdd 0 0 = some 79
    ∧ wrap360q ((wOdd.ignore_angle_deg 0 : ℚ) +
        (-(wOdd.ignore_width_deg 0 : ℚ)) / 2) = 159 / 2
    ∧ ((79 : ℚ) ≠ 159 / 2) := by
  refine ⟨?_, ?_, by norm_num⟩
  · norm_num [get_next_ignore_start_or_end, ignoreStep, ignoreBoundary,
      wrap360q, wrap360i, wOdd, List.range_succ, Int.floor_eq_iff]
  · norm_num [wOdd, wrap360q, Int.floor_eq_iff]

end Proximity
